import Mathlib

/-!
Verification development for the `marked-toc` table-of-contents generator
(`src/index.js`).  The core pipeline (`generate`, `toc.raw`, `toc.insert`)
is embedded shallowly below; external collaborators that are not part of
the repository's source (the Markdown tokenizer, the slug generator, the
tag stripper, the front-matter codec and the string matcher from the
missing `lib/utils`) are modelled from their interface contracts.

Strings are processed as `List Char` throughout so that every definition
is a plain structural recursion.
-/

namespace MarkedToc

/-! ## Generic list/string helpers -/

/-- Split a character list on newline characters (keeping empty segments),
mirroring splitting a document into lines. -/
def splitOnNl : List Char → List (List Char)
  | [] => [[]]
  | c :: t =>
    if c = '\n' then [] :: splitOnNl t
    else
      match splitOnNl t with
      | [] => [[c]]
      | h :: r => (c :: h) :: r

/-- Drop trailing characters satisfying `p`. -/
def dropTrailing (p : Char → Bool) (l : List Char) : List Char :=
  (l.reverse.dropWhile p).reverse

/-- Trim whitespace at both ends of a character list. -/
def strTrim (l : List Char) : List Char :=
  dropTrailing (fun c => c.isWhitespace) (l.dropWhile (fun c => c.isWhitespace))

/-- Index of the first occurrence of `pat` in `hay`
(the semantics of `String.prototype.indexOf`). -/
def strFind (pat : List Char) : List Char → Option Nat
  | [] => if pat.isPrefixOf [] then some 0 else none
  | c :: t =>
    if pat.isPrefixOf (c :: t) then some 0
    else (strFind pat t).map (fun i => i + 1)

/-- Replace the first occurrence of `pat` in `hay` by `repl`
(the semantics of `String.prototype.replace` with a string pattern,
used by `res.replace(start, newtoc)` in `toc.insert`). -/
def replaceFirstL (hay pat repl : List Char) : List Char :=
  match strFind pat hay with
  | none => hay
  | some i => hay.take i ++ repl ++ hay.drop (i + pat.length)

/-- A run of `n` space characters. -/
def mkSpaces (n : Nat) : String :=
  String.mk (List.replicate n ' ')

/-- Collapse every run of consecutive newline characters to a single
newline (`b` records whether the previous kept character was a newline).
Used to state idempotence of `toc.insert` up to blank-line accumulation. -/
def collapseNlAux : List Char → Bool → List Char
  | [], _ => []
  | c :: t, b =>
    if c = '\n' then
      if b then collapseNlAux t true else '\n' :: collapseNlAux t true
    else c :: collapseNlAux t false

/-- Collapse runs of newlines in a character list. -/
def collapseNl (l : List Char) : List Char :=
  collapseNlAux l false

/-! ## Modelled external collaborators -/

/-- Modelled from the spec: the external Tag Stripper (`striptags`),
"stripTags(text) → text removing inline markup"; modelled as deleting
every `<`..`>` span. -/
def striptagsAux : List Char → Bool → List Char
  | [], _ => []
  | c :: t, inTag =>
    if inTag then
      if c = '>' then striptagsAux t false else striptagsAux t true
    else
      if c = '<' then striptagsAux t true else c :: striptagsAux t false

/-- Modelled from the spec: `striptags` on strings. -/
def striptagsModel (s : String) : String :=
  String.mk (striptagsAux s.data false)

/-- Modelled from the spec: the external Slug Generator (`uslug`),
"slugify(text, {allowedChars}) → string, deterministic, URL-safe";
modelled as lowercasing, keeping alphanumeric characters and the allowed
character `-`, and mapping spaces to `-`. -/
def slugifyModel (s : String) : String :=
  String.mk (s.data.filterMap (fun c =>
    if c.isAlphanum then some c.toLower
    else if c = ' ' then some '-'
    else if c = '-' then some c
    else none))

/-- Modelled from the spec: `utils.strip` from the repository's missing
`lib/utils`, "optionally passed through an external strip-tags transform
when `options.strip` is set"; modelled as the tag stripper. -/
def utilsStrip (s : String) : String :=
  striptagsModel s

/-- Modelled from the spec: `utils.isMatch` from the repository's missing
`lib/utils`, the String Matcher collaborator
"isMatch(patterns, candidate) → bool"; modelled with the spec's default
recommendation of exact string equality against any entry. -/
def isMatch (pats : List String) (s : String) : Bool :=
  pats.any (fun p => p = s)

/-- Block-level token produced by the external Tokenizer collaborator:
either a heading `{type:"heading", depth, text}` or some other,
opaque block type. -/
inductive Token where
  | heading (depth : Nat) (text : String)
  | other
deriving DecidableEq

/-- Heading text of one heading line: text after the hashes with
surrounding spaces and trailing closing hashes removed. -/
def headingTextOf (rest : List Char) : List Char :=
  strTrim (dropTrailing (fun c => c = '#') (strTrim rest))

/-- Modelled from the spec: one line of the external Tokenizer
(`marked.lexer`).  A line of `1`..`6` leading `#` characters (after
optional indentation) is a heading of that depth; any other non-blank
line is an opaque block. -/
def parseLine (l : List Char) : Option Token :=
  let line := l.dropWhile (fun c => c = ' ')
  let n := (line.takeWhile (fun c => c = '#')).length
  if 1 ≤ n ∧ n ≤ 6 then
    some (Token.heading n (String.mk (headingTextOf (line.drop n))))
  else none

/-- Blank line: only whitespace. -/
def isBlankL (l : List Char) : Bool :=
  l.all (fun c => c.isWhitespace)

/-- Modelled from the spec: the external Tokenizer collaborator
"tokenize(markdownText) → ordered sequence of tokens"; blank lines
produce no token, heading lines produce heading tokens, and any other
line is an opaque block token. -/
def tokenize (s : String) : List Token :=
  (splitOnNl s.data).filterMap (fun l =>
    if isBlankL l then none
    else
      match parseLine l with
      | some t => some t
      | none => some Token.other)

/-- Result of the front-matter split: raw front-matter text (if any)
plus the body. -/
structure MatterFile where
  fm : Option (List Char)
  content : List Char
deriving DecidableEq

/-- Opening front-matter fence. -/
def fmOpen : List Char := ('-' :: '-' :: '-' :: '\n' :: [])

/-- Closing front-matter fence. -/
def fmClose : List Char := ('\n' :: '-' :: '-' :: '-' :: '\n' :: [])

/-- Modelled from the spec: the external Front-matter Codec
(`gray-matter`), "parse(documentText) → {data, content}": a document
beginning with a `---` fence is split into front matter and body,
anything else is all body. -/
def matterParse (s : List Char) : MatterFile :=
  if fmOpen.isPrefixOf s then
    match strFind fmClose (s.drop fmOpen.length) with
    | some i =>
      { fm := some ((s.drop fmOpen.length).take i)
        content := (s.drop fmOpen.length).drop (i + fmClose.length) }
    | none => { fm := none, content := s }
  else { fm := none, content := s }

/-- Modelled from the spec: the external Front-matter Codec,
"stringify(content, data) → documentText", re-attaching the fences. -/
def matterStringifyL (content : List Char) (fm : Option (List Char)) : List Char :=
  match fm with
  | none => content
  | some f => fmOpen ++ f ++ fmClose ++ content

/-! ## Data model of the generation pipeline (`src/index.js`) -/

/-- The `bullet` option: absent, a single string, or an ordered sequence. -/
inductive BulletOpt where
  | undef
  | str (s : String)
  | arr (l : List String)
deriving DecidableEq

/-- Recognized options of `generate`, with the defaults installed by
`_.extend` at `src/index.js:42-51` (`firsth1:false`, `omit:[]`,
`maxDepth:3`; `bullet` and `strip` are absent by default).  The unused
`blacklist` flag, the fixed slugify configuration and the template/extra
template data (exercised only through the default template here) are not
represented. -/
structure Options where
  firsth1 : Bool := false
  «omit» : List String := []
  maxDepth : Nat := 3
  bullet : BulletOpt := BulletOpt.undef
  strip : Bool := false
deriving DecidableEq

/-- The options produced by calling the pipeline with no options object. -/
def defaultOptions : Options := {}

/-- A heading surviving the filter stage: its original depth, its
(possibly rebased) depth — the mutated `token.depth` —, the display
text `token.heading` and the slug `token.id`. -/
structure FilteredHeading where
  origDepth : Nat
  depth : Int
  heading : String
  id : String
deriving DecidableEq

/-- One entry of `tocArray` (`src/index.js:102-109`): the template data
record.  `rdepth` records the rebased heading depth the record was built
from; `indent` is the record's `depth` field (a string of spaces). -/
structure TocRecord where
  rdepth : Int
  indent : String
  bullet : String
  heading : String
  url : String
deriving DecidableEq

/-- Return value of `generate` (`src/index.js:113-118`). -/
structure GenResult where
  data : List TocRecord
  toc : String
deriving DecidableEq

/-! ## The generation pipeline -/

/-- Removal of the leading token (`src/index.js:57-60`): when
`opts.firsth1 === false`, `tokens.shift()` drops the first token
unconditionally. -/
def shiftTokens (opts : Options) (ts : List Token) : List Token :=
  if opts.firsth1 = false then ts.drop 1 else ts

/-- Does a token carry `depth` equal to `1`?  Only heading tokens carry a
depth, so this holds exactly for level-1 headings. -/
def hasDepth1 : Token → Bool
  | Token.heading 1 _ => true
  | _ => false

/-- The document-wide flag `h1 = _.any(tokens, {depth: 1})`
(`src/index.js:63`), computed once on the post-shift stream. -/
def anyH1 (ts : List Token) : Bool :=
  ts.any hasDepth1

/-- Depth rebasing (`src/index.js:73-75`): when no level-1 heading
remains, every heading depth is decremented. -/
def rebase (h1 : Bool) (d : Nat) : Int :=
  if h1 then (d : Int) else (d : Int) - 1

/-- The built-in omission list (`src/index.js:84`). -/
def omissions : List String :=
  ["Table of Contents", "TOC", "TABLE OF CONTENTS"]

/-- The omission set `_.union([], opts.«omit», omissions)`
(`src/index.js:85`); only membership matters, so the union is modelled
by appending. -/
def omissionSet (opts : Options) : List String :=
  opts.«omit» ++ omissions

/-- The display text `token.heading` (`src/index.js:78`): the raw text,
passed through `utils.strip` when `opts.strip` is set. -/
def headingOf (opts : Options) (text : String) : String :=
  if opts.strip then utilsStrip text else text

/-- The body of the `tokens.filter` callback (`src/index.js:65-91`):
non-headings are dropped, the depth is rebased under the document-wide
flag, display text and slug are attached, and omitted headings are
dropped. -/
def filterTok (h1 : Bool) (opts : Options) : Token → Option FilteredHeading
  | Token.other => none
  | Token.heading d text =>
    if isMatch (omissionSet opts) (headingOf opts text) then none
    else some
      { origDepth := d
        depth := rebase h1 d
        heading := headingOf opts text
        id := slugifyModel (striptagsModel text) }

/-- The filter stage (`src/index.js:65-91`). -/
def filterStage (h1 : Bool) (opts : Options) (ts : List Token) : List FilteredHeading :=
  ts.filterMap (filterTok h1 opts)

/-- The depth cutoff `h.depth > opts.maxDepth` (`src/index.js:94`),
applied to the post-rebase depth. -/
def dropByDepth (d : Int) (m : Nat) : Bool :=
  decide ((m : Int) < d)

/-- Headings surviving the `maxDepth` cutoff inside the `forEach`
(`src/index.js:94-96`). -/
def survivorsOf (opts : Options) (fs : List FilteredHeading) : List FilteredHeading :=
  fs.filter (fun f => !(dropByDepth f.depth opts.maxDepth))

/-- JavaScript remainder `a % n` for an integer and a positive modulus
(sign of the dividend); `n = 0` is irrelevant because callers guard it. -/
def jsRem (a : Int) (n : Nat) : Int :=
  if 0 ≤ a then ((a.toNat % n : Nat) : Int)
  else -(((-a).toNat % n : Nat) : Int)

/-- JavaScript array indexing `l[i]`: `undefined` (none) outside bounds. -/
def jsArrIndex (l : List String) (i : Int) : Option String :=
  if 0 ≤ i then l[i.toNat]? else none

/-- Bullet selection (`src/index.js:98-100`): an array is indexed at
`(h.depth - 1) % length` (an empty array yields `undefined`: `% 0` is
`NaN` and indexing at `NaN` is `undefined`), a plain value is used as
is. -/
def selectBullet (b : BulletOpt) (d : Int) : Option String :=
  match b with
  | BulletOpt.undef => none
  | BulletOpt.str s => some s
  | BulletOpt.arr l =>
    if l.length = 0 then none
    else jsArrIndex l (jsRem (d - 1) l.length)

/-- The record's bullet (`src/index.js:104`): the falsy check
`bullet ? bullet : '* '` replaces `undefined` and the empty string by
the default `"* "`. -/
def bulletOf (b : BulletOpt) (d : Int) : String :=
  match selectBullet b d with
  | some s => if s = "" then "* " else s
  | none => "* "

/-- The indent string `new Array((h.depth - 1) * 2 + 1).join(' ')`
(`src/index.js:103`): `(d - 1) * 2` spaces for `d ≥ 1`; for `d ≤ 0` the
array length `(d - 1) * 2 + 1` is negative and the `Array` constructor
throws a `RangeError`, modelled as `none`. -/
def indentJS (d : Int) : Option String :=
  if 1 ≤ d then some (mkSpaces ((d - 1).toNat * 2)) else none

/-- Building one template-data record (`src/index.js:102-107`). -/
def buildRecord (opts : Options) (f : FilteredHeading) : Option TocRecord :=
  match indentJS f.depth with
  | none => none
  | some ind =>
    some
      { rdepth := f.depth
        indent := ind
        bullet := bulletOf opts.bullet f.depth
        heading := f.heading
        url := f.id }

/-- Building all records in order; a thrown `RangeError` anywhere aborts
the whole generation (none). -/
def buildAll (opts : Options) : List FilteredHeading → Option (List TocRecord)
  | [] => some []
  | f :: fs =>
    match buildRecord opts f, buildAll opts fs with
    | some r, some rs => some (r :: rs)
    | _, _ => none

/-- Rendering one record through the default template
`'<%= depth %><%= bullet %>[<%= heading %>](#<%= url %>)\n'`
(`src/index.js:30`, `src/index.js:110`). -/
def renderLine (r : TocRecord) : String :=
  r.indent ++ r.bullet ++ "[" ++ r.heading ++ "](#" ++ r.url ++ ")\n"

/-- The final strip pass over the concatenated output
(`src/index.js:115-117`). -/
def stripPass (opts : Options) (t : String) : String :=
  if opts.strip then utilsStrip t else t

/-- The core `generate(str, options)` (`src/index.js:41-119`), taken
after tokenization: shift the leading token, compute the document-wide
`h1` flag, filter/rebase, cut at `maxDepth`, build the records, and
render them through the default template. -/
def generate (tokens : List Token) (opts : Options) : Option GenResult :=
  match buildAll opts (survivorsOf opts
      (filterStage (anyH1 (shiftTokens opts tokens)) opts (shiftTokens opts tokens))) with
  | none => none
  | some recs =>
    some { data := recs, toc := stripPass opts (String.join (recs.map renderLine)) }

/-- `toc(str, options)` (`src/index.js:125-127`): just the rendered
string. -/
def tocString (s : String) (opts : Options) : Option String :=
  (generate (tokenize s) opts).map (fun r => r.toc)

/-- `toc.raw(str, options)` (`src/index.js:129-131`). -/
def tocRaw (s : String) (opts : Options) : Option GenResult :=
  generate (tokenize s) opts

/-! ## The insertion orchestrator (`toc.insert`, `src/index.js:133-153`) -/

/-- The start marker literal. -/
def startMarkerL : List Char := ("<!-- toc -->" : String).data

/-- The end marker literal. -/
def stopMarkerL : List Char := ("<!-- tocstop -->" : String).data

/-- First match of the regex `/<!-- toc -->([\s\S]+?)<!-- tocstop -->/`
(`src/index.js:136`): the earliest start-marker position from which an
end marker follows with at least one character in between; returns the
match's start index and one-past-the-end index. -/
def findTocMatch : List Char → Option (Nat × Nat)
  | [] => none
  | c :: t =>
    if startMarkerL.isPrefixOf (c :: t) then
      match strFind stopMarkerL ((c :: t).drop (startMarkerL.length + 1)) with
      | some k =>
        some (0, startMarkerL.length + 1 + k + stopMarkerL.length)
      | none => (findTocMatch t).map (fun p => (p.1 + 1, p.2 + 1))
    else (findTocMatch t).map (fun p => (p.1 + 1, p.2 + 1))

/-- `content.replace(re, start)` (`src/index.js:142`): delete the old
TOC region, keeping one start-marker placeholder. -/
def replaceTocRegion (s : List Char) : List Char :=
  match findTocMatch s with
  | none => s
  | some (i, e) => s.take i ++ startMarkerL ++ s.drop e

/-- The replacement block (`src/index.js:145-148`):
`'\n\n' + start + '\n\n' + toc(content) + '\n' + stop + '\n'`. -/
def newtocBlock (t : String) : List Char :=
  ('\n' :: '\n' :: []) ++ startMarkerL ++ ('\n' :: '\n' :: []) ++ t.data
    ++ ('\n' :: []) ++ stopMarkerL ++ ('\n' :: [])

/-- `toc.insert(str, options)` (`src/index.js:133-153`): split off front
matter, delete the existing TOC region, regenerate the TOC from the
post-deletion body, re-serialize the front matter and substitute the
replacement block at the start marker.  `none` models a thrown
exception inside generation. -/
def tocInsert (str : String) (opts : Options) : Option String :=
  match tocString (String.mk (replaceTocRegion (matterParse str.data).content)) opts with
  | none => none
  | some t =>
    some (String.mk (replaceFirstL
      (matterStringifyL (replaceTocRegion (matterParse str.data).content)
        (matterParse str.data).fm)
      startMarkerL (newtocBlock t)))

/-! ## Well-formedness of tokenizer output -/

/-- A token is well formed when a heading's depth is at least `1`
(the Tokenizer contract: `depth: integer ≥ 1`). -/
def wfToken : Token → Bool
  | Token.heading d _ => decide (1 ≤ d)
  | Token.other => true

/-- All tokens of a stream are well formed. -/
def wfTokens (ts : List Token) : Bool :=
  ts.all wfToken

/-- Concrete generation result used to witness the omission claim:
the output of the example document with `omit := ["A"]`. -/
def omitExampleResult : GenResult :=
  { data := [⟨2, "  ", "* ", "B", "b"⟩, ⟨1, "", "* ", "C", "c"⟩]
    toc := "  * [B](#b)\n* [C](#c)\n" }

/-- Concrete generation result used to witness the empty-bullet claim. -/
def emptyBulletResult : GenResult :=
  { data := [⟨1, "", "* ", "A", "a"⟩], toc := "* [A](#a)\n" }

/-! ## Lemmas about the filter stage -/

theorem filterTok_some {h1 : Bool} {opts : Options} {t : Token} {f : FilteredHeading}
    (h : filterTok h1 opts t = some f) :
    ∃ d text, t = Token.heading d text ∧
      isMatch (omissionSet opts) (headingOf opts text) = false ∧
      f = ⟨d, rebase h1 d, headingOf opts text, slugifyModel (striptagsModel text)⟩ := by
  cases t with
  | other => simp [filterTok] at h
  | heading d text =>
    refine ⟨d, text, rfl, ?_, ?_⟩ <;>
      · simp only [filterTok] at h
        split at h
        · exact absurd h (by simp)
        · simp_all

theorem mem_filterStage {h1 : Bool} {opts : Options} {ts : List Token}
    {f : FilteredHeading} (hf : f ∈ filterStage h1 opts ts) :
    ∃ t ∈ ts, filterTok h1 opts t = some f := by
  simpa [filterStage, List.mem_filterMap] using hf

theorem anyH1_of_mem {ts : List Token} {x : String}
    (h : Token.heading 1 x ∈ ts) : anyH1 ts = true := by
  simp only [anyH1, List.any_eq_true]
  exact ⟨Token.heading 1 x, h, rfl⟩

theorem wfTokens_mem {ts : List Token} (h : wfTokens ts = true)
    {d : Nat} {x : String} (ht : Token.heading d x ∈ ts) : 1 ≤ d := by
  simp only [wfTokens, List.all_eq_true] at h
  simpa [wfToken] using h _ ht

theorem wfTokens_shift {opts : Options} {ts : List Token}
    (h : wfTokens ts = true) : wfTokens (shiftTokens opts ts) = true := by
  simp only [wfTokens, List.all_eq_true] at h ⊢
  intro t ht
  refine h t ?_
  unfold shiftTokens at ht
  split at ht
  · exact List.mem_of_mem_drop ht
  · exact ht

/-- Core invariant: with a well-formed token stream, every heading that
passes the filter stage under the stream's own `h1` flag has rebased
depth at least `1`. -/
theorem filterStage_depth_pos {opts : Options} {ts : List Token}
    (hwf : wfTokens ts = true) {f : FilteredHeading}
    (hf : f ∈ filterStage (anyH1 ts) opts ts) : 1 ≤ f.depth := by
  obtain ⟨t, ht, hsome⟩ := mem_filterStage hf
  obtain ⟨d, text, rfl, -, rfl⟩ := filterTok_some hsome
  have hd : 1 ≤ d := wfTokens_mem hwf ht
  show 1 ≤ rebase (anyH1 ts) d
  unfold rebase
  split
  · exact_mod_cast hd
  · rename_i hh1
    have hne : d ≠ 1 := by
      intro he
      subst he
      exact hh1 (anyH1_of_mem ht)
    have : 2 ≤ d := by omega
    omega

/-! ## Lemmas about record building -/

theorem mkSpaces_length (n : Nat) : (mkSpaces n).length = n := by
  simp [mkSpaces, String.length]

theorem buildRecord_some_of_pos {opts : Options} {f : FilteredHeading}
    (h : 1 ≤ f.depth) :
    buildRecord opts f = some
      ⟨f.depth, mkSpaces ((f.depth - 1).toNat * 2), bulletOf opts.bullet f.depth,
        f.heading, f.id⟩ := by
  simp [buildRecord, indentJS, h]

theorem buildRecord_some_elim {opts : Options} {f : FilteredHeading} {r : TocRecord}
    (h : buildRecord opts f = some r) :
    1 ≤ f.depth ∧
      r = ⟨f.depth, mkSpaces ((f.depth - 1).toNat * 2), bulletOf opts.bullet f.depth,
        f.heading, f.id⟩ := by
  by_cases hpos : 1 ≤ f.depth
  · rw [buildRecord_some_of_pos hpos] at h
    refine ⟨hpos, ?_⟩
    injection h with h
    exact h.symm
  · have hnone : buildRecord opts f = none := by
      unfold buildRecord indentJS
      rw [if_neg hpos]
    rw [hnone] at h
    simp at h

theorem buildAll_isSome (opts : Options) {fs : List FilteredHeading}
    (h : ∀ f ∈ fs, 1 ≤ f.depth) : (buildAll opts fs).isSome = true := by
  induction fs with
  | nil => rfl
  | cons f fs ih =>
    have hrs := ih (fun g hg => h g (List.mem_cons_of_mem _ hg))
    obtain ⟨rs, hrs⟩ := Option.isSome_iff_exists.mp hrs
    have hb := @buildRecord_some_of_pos opts f (h f (List.mem_cons_self _ _))
    simp only [buildAll, hb, hrs, Option.isSome_some]

theorem buildAll_mem {opts : Options} {fs : List FilteredHeading}
    {rs : List TocRecord} (h : buildAll opts fs = some rs) {r : TocRecord}
    (hr : r ∈ rs) : ∃ f ∈ fs, buildRecord opts f = some r := by
  induction fs generalizing rs with
  | nil =>
    simp only [buildAll] at h
    injection h with h
    subst h
    simp at hr
  | cons f fs ih =>
    simp only [buildAll] at h
    cases hb : buildRecord opts f with
    | none => rw [hb] at h; simp at h
    | some r0 =>
      rw [hb] at h
      cases hall : buildAll opts fs with
      | none => rw [hall] at h; simp at h
      | some rs0 =>
        rw [hall] at h
        simp only [Option.some.injEq] at h
        subst h
        rcases List.mem_cons.mp hr with hre | hrm
        · exact ⟨f, List.mem_cons_self _ _, by rw [hb, hre]⟩
        · obtain ⟨g, hg, hgr⟩ := ih hall hrm
          exact ⟨g, List.mem_cons_of_mem _ hg, hgr⟩

theorem mem_survivorsOf {opts : Options} {fs : List FilteredHeading}
    {f : FilteredHeading} :
    f ∈ survivorsOf opts fs ↔ f ∈ fs ∧ dropByDepth f.depth opts.maxDepth = false := by
  simp [survivorsOf, List.mem_filter]

/-! ## Lemmas about `generate` -/

theorem generate_some_elim {ts : List Token} {opts : Options} {res : GenResult}
    (h : generate ts opts = some res) :
    buildAll opts (survivorsOf opts
        (filterStage (anyH1 (shiftTokens opts ts)) opts (shiftTokens opts ts)))
      = some res.data ∧
    res.toc = stripPass opts (String.join (res.data.map renderLine)) := by
  unfold generate at h
  cases hb : buildAll opts (survivorsOf opts
      (filterStage (anyH1 (shiftTokens opts ts)) opts (shiftTokens opts ts))) with
  | none => rw [hb] at h; simp at h
  | some recs =>
    rw [hb] at h
    simp only [Option.some.injEq] at h
    subst h
    exact ⟨rfl, rfl⟩

/-- Provenance of an output record: it was built from a heading that
passed the filter stage and the depth cutoff. -/
theorem generate_rec_elim {ts : List Token} {opts : Options} {res : GenResult}
    (h : generate ts opts = some res) {rec : TocRecord} (hr : rec ∈ res.data) :
    ∃ f, f ∈ filterStage (anyH1 (shiftTokens opts ts)) opts (shiftTokens opts ts) ∧
      dropByDepth f.depth opts.maxDepth = false ∧
      buildRecord opts f = some rec := by
  obtain ⟨hb, -⟩ := generate_some_elim h
  obtain ⟨f, hf, hfr⟩ := buildAll_mem hb hr
  obtain ⟨hmem, hdrop⟩ := mem_survivorsOf.mp hf
  exact ⟨f, hmem, hdrop, hfr⟩

/-- With a well-formed token stream, generation never raises: the
`RangeError` branch of the indent computation is unreachable. -/
theorem generate_total (ts : List Token) (opts : Options)
    (hwf : wfTokens ts = true) : ∃ r, generate ts opts = some r := by
  have hpos : ∀ f ∈ survivorsOf opts
      (filterStage (anyH1 (shiftTokens opts ts)) opts (shiftTokens opts ts)),
      1 ≤ f.depth := by
    intro f hf
    obtain ⟨hmem, -⟩ := mem_survivorsOf.mp hf
    exact filterStage_depth_pos (wfTokens_shift hwf) hmem
  obtain ⟨rs, hrs⟩ := Option.isSome_iff_exists.mp (buildAll_isSome opts hpos)
  refine ⟨{ data := rs, toc := stripPass opts (String.join (rs.map renderLine)) }, ?_⟩
  unfold generate
  rw [hrs]

theorem tokenize_wf (s : String) : wfTokens (tokenize s) = true := by
  simp only [wfTokens, List.all_eq_true]
  intro t ht
  simp only [tokenize, List.mem_filterMap] at ht
  obtain ⟨l, -, hl⟩ := ht
  split at hl
  · simp at hl
  · cases hp : parseLine l with
    | none =>
      rw [hp] at hl
      simp only [Option.some.injEq] at hl
      subst hl
      rfl
    | some t0 =>
      rw [hp] at hl
      simp only [Option.some.injEq] at hl
      subst hl
      unfold parseLine at hp
      simp only at hp
      split at hp
      · rename_i hn
        simp only [Option.some.injEq] at hp
        subst hp
        simpa [wfToken] using hn.1
      · simp at hp

theorem tocString_total (s : String) (opts : Options) :
    ∃ t, tocString s opts = some t := by
  obtain ⟨r, hr⟩ := generate_total (tokenize s) opts (tokenize_wf s)
  exact ⟨r.toc, by simp [tocString, hr]⟩

/-! ## Lemmas about searching and the front-matter codec -/

theorem isPrefixOf_append_drop {p l : List Char} (h : p.isPrefixOf l = true) :
    p ++ l.drop p.length = l := by
  rw [List.isPrefixOf_iff_prefix] at h
  obtain ⟨t, rfl⟩ := h
  rw [List.drop_left]

theorem strFind_split {pat : List Char} {hay : List Char} {i : Nat}
    (h : strFind pat hay = some i) :
    hay.take i ++ pat ++ hay.drop (i + pat.length) = hay := by
  induction hay generalizing i with
  | nil =>
    unfold strFind at h
    split at h
    · rename_i hp
      injection h with h
      subst h
      rw [List.isPrefixOf_iff_prefix] at hp
      obtain ⟨t, ht⟩ := hp
      simp at ht
      simp [ht]
    · simp at h
  | cons c t ih =>
    unfold strFind at h
    split at h
    · rename_i hp
      injection h with h
      subst h
      simpa using isPrefixOf_append_drop hp
    · cases hf : strFind pat t with
      | none => rw [hf] at h; simp at h
      | some j =>
        rw [hf] at h
        simp only [Option.map_some', Option.some.injEq] at h
        subst h
        have hj := ih hf
        have hidx : j + 1 + pat.length = (j + pat.length) + 1 := by omega
        rw [hidx, List.take_succ_cons, List.drop_succ_cons, List.cons_append,
          List.cons_append]
        rw [List.append_assoc] at hj ⊢
        rw [hj]

theorem strFind_none_drop {pat : List Char} {hay : List Char}
    (h : strFind pat hay = none) :
    ∀ n, pat.isPrefixOf (hay.drop n) = false := by
  induction hay with
  | nil =>
    intro n
    unfold strFind at h
    split at h
    · simp at h
    · rename_i hp
      rw [List.drop_nil]
      simp only [Bool.not_eq_true] at hp
      exact hp
  | cons c t ih =>
    intro n
    unfold strFind at h
    split at h
    · simp at h
    · rename_i hp
      cases hf : strFind pat t with
      | some j => rw [hf] at h; simp at h
      | none =>
        cases n with
        | zero =>
          rw [List.drop_zero]
          simp only [Bool.not_eq_true] at hp
          exact hp
        | succ m =>
          rw [List.drop_succ_cons]
          exact ih hf m

theorem findTocMatch_eq_none {l : List Char}
    (h : ∀ n, startMarkerL.isPrefixOf (l.drop n) = false) :
    findTocMatch l = none := by
  induction l with
  | nil => rfl
  | cons c t ih =>
    have h0 := h 0
    rw [List.drop_zero] at h0
    have ht : findTocMatch t = none := by
      refine ih (fun n => ?_)
      have := h (n + 1)
      rwa [List.drop_succ_cons] at this
    unfold findTocMatch
    rw [h0]
    simp [ht]

theorem replaceTocRegion_eq_self {l : List Char} (h : findTocMatch l = none) :
    replaceTocRegion l = l := by
  unfold replaceTocRegion
  rw [h]

theorem replaceFirstL_eq_self {hay pat r : List Char}
    (h : strFind pat hay = none) : replaceFirstL hay pat r = hay := by
  unfold replaceFirstL
  rw [h]

theorem matterParse_content_drop (s : List Char) :
    ∃ k, (matterParse s).content = s.drop k := by
  unfold matterParse
  split
  · split
    · rename_i i _
      exact ⟨fmOpen.length + (i + fmClose.length), by simp [List.drop_drop]⟩
    · exact ⟨0, by simp⟩
  · exact ⟨0, by simp⟩

theorem matter_roundtrip (s : List Char) :
    matterStringifyL (matterParse s).content (matterParse s).fm = s := by
  unfold matterParse
  split
  · rename_i hpre
    cases hf : strFind fmClose (s.drop fmOpen.length) with
    | none => rfl
    | some i =>
      have hsplit : (s.drop fmOpen.length).take i ++
          (fmClose ++ (s.drop fmOpen.length).drop (i + fmClose.length))
          = s.drop fmOpen.length := by
        have := strFind_split hf
        rwa [List.append_assoc] at this
      show fmOpen ++ (s.drop fmOpen.length).take i ++ fmClose ++
          (s.drop fmOpen.length).drop (i + fmClose.length) = s
      rw [List.append_assoc, List.append_assoc, hsplit]
      exact isPrefixOf_append_drop hpre
  · rfl

/-! ## Claim theorems -/

/-- Claim C1: with default options (`firsth1 = false`, `maxDepth = 3`),
`toc.raw` on `"# Title\n\n## A\n\n### B\n\n## C\n"` yields exactly the
records A/B/C at rebased depths 1/2/1 and the rendered string
`"* [A](#a)\n  * [B](#b)\n* [C](#c)\n"`. -/
theorem raw_default_example :
    (tocRaw "# Title\n\n## A\n\n### B\n\n## C\n" defaultOptions).map
        (fun r => (r.data.map (fun rec => (rec.heading, rec.rdepth)), r.toc))
      = some ([("A", 1), ("B", 2), ("C", 1)],
          "* [A](#a)\n  * [B](#b)\n* [C](#c)\n") := by
  decide

/-- Claim C2: the depth-rebasing decision is the single document-wide
flag `anyH1` computed once on the post-shift stream; every heading that
passes the filter stage has rebased depth equal to its original depth
when the flag holds, and original depth minus one otherwise. -/
theorem rebase_uniform (tokens : List Token) (opts : Options) (f : FilteredHeading)
    (hf : f ∈ filterStage (anyH1 (shiftTokens opts tokens)) opts
      (shiftTokens opts tokens)) :
    f.depth = if anyH1 (shiftTokens opts tokens) = true then (f.origDepth : Int)
      else (f.origDepth : Int) - 1 := by
  obtain ⟨t, ht, hsome⟩ := mem_filterStage hf
  obtain ⟨d, text, rfl, -, rfl⟩ := filterTok_some hsome
  show rebase (anyH1 (shiftTokens opts tokens)) d = _
  unfold rebase
  rfl

/-- Claim C2 witness. -/
theorem rebase_uniform_witness :
    (⟨2, 1, "A", "a"⟩ : FilteredHeading).depth =
      if anyH1 (shiftTokens defaultOptions
          [Token.heading 1 "Title", Token.heading 2 "A"]) = true
      then ((⟨2, 1, "A", "a"⟩ : FilteredHeading).origDepth : Int)
      else ((⟨2, 1, "A", "a"⟩ : FilteredHeading).origDepth : Int) - 1 :=
  rebase_uniform [Token.heading 1 "Title", Token.heading 2 "A"] defaultOptions
    ⟨2, 1, "A", "a"⟩ (by decide)

/-- Claim C3 (counterexample): `insert` is not idempotent byte-for-byte.
On `"# T\n\n<!-- toc -->\n\n## A\n"` (headings unchanged between calls)
the second output gains an extra blank line before the marker block and
an extra newline after the end marker. -/
theorem insert_not_idempotent :
    tocInsert "# T\n\n<!-- toc -->\n\n## A\n" defaultOptions
      = some "# T\n\n\n\n<!-- toc -->\n\n* [A](#a)\n\n<!-- tocstop -->\n\n\n## A\n" ∧
    tocInsert "# T\n\n\n\n<!-- toc -->\n\n* [A](#a)\n\n<!-- tocstop -->\n\n\n## A\n"
        defaultOptions
      = some "# T\n\n\n\n\n\n<!-- toc -->\n\n* [A](#a)\n\n<!-- tocstop -->\n\n\n\n## A\n" ∧
    ("# T\n\n\n\n\n\n<!-- toc -->\n\n* [A](#a)\n\n<!-- tocstop -->\n\n\n\n## A\n" : String)
      ≠ "# T\n\n\n\n<!-- toc -->\n\n* [A](#a)\n\n<!-- tocstop -->\n\n\n## A\n" := by
  decide

/-- Claim C3 (amended): `insert` is idempotent only up to blank-line
accumulation: with unchanged headings the second output differs from the
first only by an extra blank line before the `<!-- toc -->` block and an
extra newline after `<!-- tocstop -->`; collapsing newline runs makes
the two outputs identical (on the example document). -/
theorem insert_idempotent_up_to_blank_lines :
    tocInsert "# T\n\n<!-- toc -->\n\n## A\n" defaultOptions
      = some "# T\n\n\n\n<!-- toc -->\n\n* [A](#a)\n\n<!-- tocstop -->\n\n\n## A\n" ∧
    tocInsert "# T\n\n\n\n<!-- toc -->\n\n* [A](#a)\n\n<!-- tocstop -->\n\n\n## A\n"
        defaultOptions
      = some "# T\n\n\n\n\n\n<!-- toc -->\n\n* [A](#a)\n\n<!-- tocstop -->\n\n\n\n## A\n" ∧
    collapseNl
        ("# T\n\n\n\n\n\n<!-- toc -->\n\n* [A](#a)\n\n<!-- tocstop -->\n\n\n\n## A\n" : String).data
      = collapseNl
        ("# T\n\n\n\n<!-- toc -->\n\n* [A](#a)\n\n<!-- tocstop -->\n\n\n## A\n" : String).data := by
  decide

/-- Claim C4: a heading whose display text matches any entry of the
omission set (the union of `options.omit` and the built-in list) never
yields an output record, and the rendered string is exactly the join of
the surviving records' rendered lines. -/
theorem omitted_heading_never_output (ts : List Token) (opts : Options)
    (r : GenResult) (h : generate ts opts = some r) :
    (∀ rec ∈ r.data, isMatch (omissionSet opts) rec.heading = false) ∧
    r.toc = stripPass opts (String.join (r.data.map renderLine)) := by
  obtain ⟨-, htoc⟩ := generate_some_elim h
  refine ⟨?_, htoc⟩
  intro rec hrec
  obtain ⟨f, hf, -, hbr⟩ := generate_rec_elim h hrec
  obtain ⟨t, ht, hsome⟩ := mem_filterStage hf
  obtain ⟨d, text, rfl, hmatch, rfl⟩ := filterTok_some hsome
  obtain ⟨-, rfl⟩ := buildRecord_some_elim hbr
  exact hmatch

/-- Claim C4 witness (`omit := ["A"]` drops the "A" heading only). -/
theorem omitted_heading_never_output_witness :
    (∀ rec ∈ omitExampleResult.data,
        isMatch (omissionSet { defaultOptions with «omit» := ["A"] }) rec.heading
          = false) ∧
    omitExampleResult.toc
      = stripPass { defaultOptions with «omit» := ["A"] }
          (String.join (omitExampleResult.data.map renderLine)) :=
  omitted_heading_never_output (tokenize "# Title\n\n## A\n\n### B\n\n## C\n")
    { defaultOptions with «omit» := ["A"] } omitExampleResult (by decide)

/-- Claim C5: the `maxDepth` cutoff tests the post-rebase depth; a
rebased depth of `0` or below always passes the test; survivorship is
exactly `¬(rebasedDepth > maxDepth)`; and on the example input with
`maxDepth = 1` heading "B" is dropped, leaving only the "A" and "C"
lines. -/
theorem maxDepth_applied_post_rebase :
    (∀ (d : Int) (m : Nat), d ≤ 0 → dropByDepth d m = false) ∧
    (∀ (opts : Options) (fs : List FilteredHeading) (f : FilteredHeading),
        f ∈ survivorsOf opts fs ↔
          f ∈ fs ∧ dropByDepth f.depth opts.maxDepth = false) ∧
    (tocRaw "# Title\n\n## A\n\n### B\n\n## C\n" { defaultOptions with maxDepth := 1 }).map
        (fun r => (r.data.map (fun rec => rec.heading), r.toc))
      = some (["A", "C"], "* [A](#a)\n* [C](#c)\n") := by
  refine ⟨?_, ?_, by decide⟩
  · intro d m hd
    simp only [dropByDepth, decide_eq_false_iff_not]
    omega
  · intro opts fs f
    exact mem_survivorsOf

/-- Claim C5 witness. -/
theorem maxDepth_applied_post_rebase_witness :
    dropByDepth 0 3 = false ∧
    ((⟨2, 1, "A", "a"⟩ : FilteredHeading) ∈ survivorsOf defaultOptions [⟨2, 1, "A", "a"⟩] ↔
      (⟨2, 1, "A", "a"⟩ : FilteredHeading) ∈ [(⟨2, 1, "A", "a"⟩ : FilteredHeading)] ∧
        dropByDepth (⟨2, 1, "A", "a"⟩ : FilteredHeading).depth defaultOptions.maxDepth
          = false) :=
  ⟨maxDepth_applied_post_rebase.1 0 3 (by decide),
    maxDepth_applied_post_rebase.2.1 defaultOptions [⟨2, 1, "A", "a"⟩] ⟨2, 1, "A", "a"⟩⟩

/-- Claim C6 (counterexample): at rebased depth `0` the indent
construction `new Array((depth - 1) * 2 + 1)` raises a `RangeError`
(modelled `none`) instead of clamping to an empty indent, so record
building at depth `0` errors rather than producing an empty string. -/
theorem indent_depth_zero_raises :
    indentJS 0 = none ∧ buildRecord defaultOptions ⟨1, 0, "A", "a"⟩ = none := by
  decide

/-- Claim C6 (amended): every record actually built by the pipeline has
rebased depth at least `1` and an indent of exactly
`(rebasedDepth - 1) * 2` space characters; the depth `≤ 0` case never
reaches record building (and would raise there, not clamp). -/
theorem indent_always_wellformed (ts : List Token) (opts : Options)
    (hwf : wfTokens ts = true) :
    ∃ r, generate ts opts = some r ∧
      ∀ rec ∈ r.data, 1 ≤ rec.rdepth ∧
        rec.indent.length = (rec.rdepth - 1).toNat * 2 := by
  obtain ⟨r, hr⟩ := generate_total ts opts hwf
  refine ⟨r, hr, ?_⟩
  intro rec hrec
  obtain ⟨f, -, -, hbr⟩ := generate_rec_elim hr hrec
  obtain ⟨hpos, rfl⟩ := buildRecord_some_elim hbr
  exact ⟨hpos, mkSpaces_length _⟩

/-- Claim C6 witness. -/
theorem indent_always_wellformed_witness :
    ∃ r, generate (tokenize "# Title\n\n## A\n\n### B\n\n## C\n") defaultOptions
        = some r ∧
      ∀ rec ∈ r.data, 1 ≤ rec.rdepth ∧
        rec.indent.length = (rec.rdepth - 1).toNat * 2 :=
  indent_always_wellformed (tokenize "# Title\n\n## A\n\n### B\n\n## C\n")
    defaultOptions (by decide)

/-- Claim C7: with no `<!-- toc -->` start marker anywhere in the
document, `insert` returns the document unchanged (the front-matter
round trip is exact), a silent no-op; and when no marker pair matches,
the region-replace step leaves the body unchanged. -/
theorem insert_no_marker_noop :
    (∀ (str : String) (opts : Options), strFind startMarkerL str.data = none →
        tocInsert str opts = some str) ∧
    (∀ body : List Char, findTocMatch body = none → replaceTocRegion body = body) := by
  constructor
  · intro str opts h
    have hocc : ∀ n, startMarkerL.isPrefixOf (str.data.drop n) = false :=
      strFind_none_drop h
    obtain ⟨k, hk⟩ := matterParse_content_drop str.data
    have hocc' : ∀ n,
        startMarkerL.isPrefixOf ((matterParse str.data).content.drop n) = false := by
      intro n
      rw [hk, List.drop_drop]
      exact hocc _
    have hfind : findTocMatch (matterParse str.data).content = none :=
      findTocMatch_eq_none hocc'
    have hregion : replaceTocRegion (matterParse str.data).content
        = (matterParse str.data).content := replaceTocRegion_eq_self hfind
    have hres : strFind startMarkerL
        (matterStringifyL (matterParse str.data).content (matterParse str.data).fm)
        = none := by
      rw [matter_roundtrip]
      exact h
    obtain ⟨t, ht⟩ :=
      tocString_total (String.mk (replaceTocRegion (matterParse str.data).content)) opts
    simp only [tocInsert, ht]
    rw [hregion, replaceFirstL_eq_self hres, matter_roundtrip]
  · intro body h
    exact replaceTocRegion_eq_self h

/-- Claim C7 witness. -/
theorem insert_no_marker_noop_witness :
    tocInsert "# T\n\n## A\n" defaultOptions = some "# T\n\n## A\n" ∧
    replaceTocRegion ("## A\n" : String).data = ("## A\n" : String).data :=
  ⟨insert_no_marker_noop.1 "# T\n\n## A\n" defaultOptions (by decide),
    insert_no_marker_noop.2 ("## A\n" : String).data (by decide)⟩

/-- Claim C8 (counterexample): with `options.bullet` an empty sequence,
generation does not fail fast: it succeeds and the record's bullet is
the default `"* "`. -/
theorem empty_bullet_no_failure :
    (generate (tokenize "# T\n\n## A\n")
        { defaultOptions with bullet := BulletOpt.arr [] }).map
        (fun r => r.data.map (fun rec => rec.bullet))
      = some ["* "] := by
  decide

/-- Claim C8 (amended): with `options.bullet` an empty sequence the
indexed lookup yields `undefined` and the falsy fallback silently
substitutes the default `"* "` for every record; generation succeeds
and never emits an undefined bullet. -/
theorem empty_bullet_silently_defaults (ts : List Token) (opts : Options)
    (r : GenResult) (hb : opts.bullet = BulletOpt.arr [])
    (h : generate ts opts = some r) :
    ∀ rec ∈ r.data, rec.bullet = "* " := by
  intro rec hrec
  obtain ⟨f, -, -, hbr⟩ := generate_rec_elim h hrec
  obtain ⟨-, rfl⟩ := buildRecord_some_elim hbr
  show bulletOf opts.bullet f.depth = "* "
  rw [hb]
  rfl

/-- Claim C8 witness. -/
theorem empty_bullet_silently_defaults_witness :
    (⟨1, "", "* ", "A", "a"⟩ : TocRecord).bullet = "* " :=
  empty_bullet_silently_defaults (tokenize "# T\n\n## A\n")
    { defaultOptions with bullet := BulletOpt.arr [] }
    emptyBulletResult rfl (by decide) ⟨1, "", "* ", "A", "a"⟩ (by decide)

/-- Claim C9: when `firsth1` is false the very first token is dropped
unconditionally, whatever its type: the post-shift stream is exactly the
tail, and the generation result does not depend on the first token at
all (in particular a leading heading never contributes a record). -/
theorem firsth1_false_drops_first (opts : Options) (h : opts.firsth1 = false)
    (t t' : Token) (rest : List Token) :
    shiftTokens opts (t :: rest) = rest ∧
    generate (t :: rest) opts = generate (t' :: rest) opts := by
  have hs : ∀ u : Token, shiftTokens opts (u :: rest) = rest := by
    intro u
    unfold shiftTokens
    rw [if_pos h]
    rfl
  refine ⟨hs t, ?_⟩
  unfold generate
  rw [hs t, hs t']

/-- Claim C9 witness: a leading heading is dropped like any other
block. -/
theorem firsth1_false_drops_first_witness :
    shiftTokens defaultOptions
        [Token.heading 1 "Title", Token.heading 2 "A"] = [Token.heading 2 "A"] ∧
    generate [Token.heading 1 "Title", Token.heading 2 "A"] defaultOptions
      = generate [Token.other, Token.heading 2 "A"] defaultOptions :=
  firsth1_false_drops_first defaultOptions rfl (Token.heading 1 "Title") Token.other
    [Token.heading 2 "A"]

/-- Claim C10: on well-formed tokenizer output, generation always
succeeds and every record reaching the record-building step has rebased
depth at least `1`: the rebasing flag is true whenever a depth-1 token
remains, so the subtract-one rebase only applies when every remaining
heading has depth at least `2`, and the depth-`0`-or-negative indent
case is unreachable. -/
theorem rebased_depth_always_pos (ts : List Token) (opts : Options)
    (hwf : wfTokens ts = true) :
    ∃ r, generate ts opts = some r ∧ ∀ rec ∈ r.data, 1 ≤ rec.rdepth := by
  obtain ⟨r, hr⟩ := generate_total ts opts hwf
  refine ⟨r, hr, ?_⟩
  intro rec hrec
  obtain ⟨f, hf, -, hbr⟩ := generate_rec_elim hr hrec
  obtain ⟨hpos, rfl⟩ := buildRecord_some_elim hbr
  exact hpos

/-- Claim C10 witness. -/
theorem rebased_depth_always_pos_witness :
    ∃ r, generate (tokenize "# Title\n\n## A\n\n### B\n\n## C\n") defaultOptions
        = some r ∧
      ∀ rec ∈ r.data, 1 ≤ rec.rdepth :=
  rebased_depth_always_pos (tokenize "# Title\n\n## A\n\n### B\n\n## C\n")
    defaultOptions (by decide)

end MarkedToc
